import Mathlib

/- Shallow embedding of the price-generation engine and the chart viewport of
the CryptoSim repository (src/App.tsx and src/unnamed/part_000 for the engine,
src/unnamed/part_003 and part_004 for the chart).  JavaScript numbers are
modelled as rationals; every `Math.random()` draw is passed in explicitly as a
parameter expected in [0, 1]. -/

namespace CryptoSim

/-- One chart point, `DataPoint` in types.ts: `{ time, price, isSimulation }`. -/
structure Sample where
  time : ℚ
  price : ℚ
  isSimulation : Bool
  deriving DecidableEq

/-- Volatility levels of a simulation, `Volatility` in types.ts. -/
inductive Volatility where
  | low
  | medium
  | high
  deriving DecidableEq

/-- Simulation descriptor, `SimulationConfig` in types.ts (string ids elided:
no claim depends on them). -/
structure SimCfg where
  active : Bool
  startPrice : ℚ
  targetPrice : ℚ
  startTime : ℚ
  durationMs : ℚ
  endTime : ℚ
  volatility : Volatility
  deriving DecidableEq

/-- Volatility multiplier of the engine tick (src/App.tsx lines 441-443):
default 0.0005, LOW 0.0001, HIGH 0.002. -/
def volatilityMultiplier : Volatility → ℚ
  | .low => 0.0001
  | .medium => 0.0005
  | .high => 0.002

/-- Jerk multiplier of the engine tick (src/App.tsx lines 448-453), from the
two uniform draws `r1` (drawn under HIGH volatility) and `r2`. -/
def jerkMultiplier (v : Volatility) (r1 r2 : ℚ) : ℚ :=
  if v = .high ∧ 0.85 < r1 then 4
  else if 0.9 < r2 then 2
  else 1

/-- Simulating-mode price update of the engine tick (src/App.tsx lines
436-455).  `rShock` is the uniform draw for the random shock; `r1`, `r2` are
the jerk draws. -/
def simulatingPrice (sim : SimCfg) (now lastPrice r1 r2 rShock : ℚ) : ℚ :=
  let elapsed := now - sim.startTime
  let remainingTime := sim.durationMs - elapsed
  let currentGap := sim.targetPrice - lastPrice
  let ticksLeft := max 1 (remainingTime / 1000)
  let trendStep := currentGap / ticksLeft
  let volatility := lastPrice * volatilityMultiplier sim.volatility
  let randomShock := (rShock - 0.5) * volatility * 2
  lastPrice + trendStep + randomShock * jerkMultiplier sim.volatility r1 r2

/-- Price path of a simulation under the engine tick with the shock draw fixed
at its midpoint 0.5 (zero noise).  `setInterval(..., 1000)` first fires one
period after the simulation starts, so tick `k` runs at
`elapsed = k * 1000`; a tick with `elapsed >= durationMs` stops the
simulation and leaves the price unchanged (src/App.tsx line 433). -/
def simPathNoNoise (sim : SimCfg) : ℕ → ℚ
  | 0 => sim.startPrice
  | k + 1 =>
    let p := simPathNoNoise sim k
    let now := sim.startTime + ((k : ℚ) + 1) * 1000
    if now - sim.startTime < sim.durationMs then
      simulatingPrice sim now p 0 0 0.5
    else p

/-- JS `array.slice(-n)`: the last `n` elements of a list (all of them when it
is shorter). -/
def sliceLast (n : ℕ) (l : List Sample) : List Sample :=
  l.drop (l.length - n)

/-- Buffer capacity: the literal 3000 of `[...lastData, newPoint].slice(-3000)`
(src/App.tsx line 495). -/
def bufferCap : ℕ := 3000

/-- Append-then-evict step performed by the engine tick (and by the realtime
viewer callback): `[...data, p].slice(-3000)`. -/
def bufferAppend (buf : List Sample) (p : Sample) : List Sample :=
  sliceLast bufferCap (buf ++ [p])

/-- Price floor clamp `Math.max(0.00000001, nextPrice)` (src/App.tsx line
492). -/
def clampPrice (p : ℚ) : ℚ := max 0.00000001 p

/-- Append gate plus clamped append of the engine tick (src/App.tsx lines
489-499): a new sample is stored only when `now - lastPoint.time > 1000`.  An
empty buffer never reaches this code, because the tick returns early on it
(line 416). -/
def engineAppend (buf : List Sample) (now nextPrice : ℚ) (isSim : Bool) : List Sample :=
  match buf.getLast? with
  | none => buf
  | some lastPoint =>
    if 1000 < now - lastPoint.time then
      bufferAppend buf { time := now, price := clampPrice nextPrice, isSimulation := isSim }
    else buf

/-- Reverting-mode price before the snap test (src/App.tsx lines 472-476):
`lastPrice + diff * 0.1 + (rNoise - 0.5) * (lastPrice * 0.0002)`. -/
def revertPrice (target lastPrice rNoise : ℚ) : ℚ :=
  lastPrice + (target - lastPrice) * 0.1 + (rNoise - 0.5) * (lastPrice * 0.0002)

/-- Reverting-mode tick (src/App.tsx lines 470-480): the produced price and the
new `isReverting` flag.  When `|diff| < target * 0.0001` the price snaps to the
target and reverting ends. -/
def revertTick (target lastPrice rNoise : ℚ) : ℚ × Bool :=
  if |target - lastPrice| < target * 0.0001 then (target, false)
  else (revertPrice target lastPrice rNoise, true)

/-- Mutable state the engine tick reads and writes: the chart buffer, the
active simulation descriptor and the `isReverting` / `isLive` flags. -/
structure EngineState where
  buf : List Sample
  sim : Option SimCfg
  isReverting : Bool
  isLive : Bool
  deriving DecidableEq

/-- Simulation state machine modes (spec section 4.1). -/
inductive Mode where
  | live
  | simulating
  | reverting
  deriving DecidableEq

/-- Mode read off the engine state: an active descriptor means Simulating,
otherwise the reverting flag means Reverting, otherwise Live. -/
def modeOf (st : EngineState) : Mode :=
  match st.sim with
  | some sim =>
    if sim.active then .simulating else if st.isReverting then .reverting else .live
  | none => if st.isReverting then .reverting else .live

/-- Reverting branch of the engine tick (src/App.tsx lines 470-480 together
with the shared append code). -/
def revertBranchStep (st : EngineState) (now realPrice lastPrice rNoise : ℚ) : EngineState :=
  let pr := revertTick realPrice lastPrice rNoise
  { st with
    isReverting := pr.2
    isLive := false
    buf := engineAppend st.buf now pr.1 false }

/-- One firing of the engine interval (src/App.tsx lines 412-500, controller
path; the throttled real-price refresh is elided, `realPrice` standing for the
staged `realPriceRef` value read by this tick).  A tick whose simulation has
`elapsed >= durationMs` stops it (descriptor discarded, reverting begins) and
the price carried to the append gate stays at the last buffered price. -/
def engineTick (st : EngineState) (now realPrice r1 r2 rShock rNoise : ℚ) : EngineState :=
  match st.buf.getLast? with
  | none => st
  | some lastPoint =>
    match st.sim with
    | some sim =>
      if sim.active then
        if sim.durationMs ≤ now - sim.startTime then
          { st with
            sim := none
            isReverting := true
            isLive := false
            buf := engineAppend st.buf now lastPoint.price false }
        else
          { st with
            isLive := false
            buf := engineAppend st.buf now
              (simulatingPrice sim now lastPoint.price r1 r2 rShock) true }
      else if st.isReverting then
        revertBranchStep st now realPrice lastPoint.price rNoise
      else st
    | none =>
      if st.isReverting then
        revertBranchStep st now realPrice lastPoint.price rNoise
      else
        { st with
          isLive := true
          buf := engineAppend st.buf now realPrice false }

/-- Storage calls the startup hydration can make on the local single-slot
simulation storage (services/storage). -/
inductive StorageOp where
  | clear
  | archive
  deriving DecidableEq

/-- Local durable storage: the active-simulation slot and the history log. -/
structure StorageState where
  activeSlot : Option SimCfg
  history : List SimCfg
  deriving DecidableEq

/-- Effect of one storage call made with descriptor `cfg`:
`clearSimulation()` empties the slot, `archiveSimulation(cfg)` appends to the
history log. -/
def applyOp (cfg : SimCfg) (st : StorageState) (op : StorageOp) : StorageState :=
  match op with
  | .clear => { st with activeSlot := none }
  | .archive => { st with history := st.history ++ [cfg] }

/-- Effect of a sequence of storage calls, first to last. -/
def applyOps (cfg : SimCfg) (st : StorageState) (ops : List StorageOp) : StorageState :=
  ops.foldl (applyOp cfg) st

/-- Startup hydration of a persisted descriptor (src/App.tsx lines 249-265):
when `now < endTime + 60000` the simulation resumes; otherwise it is discarded
and the code calls `storage.clearSimulation()` and then
`storage.archiveSimulation(savedSim)`, in that order.  Returns the resolved
simulation and the ordered storage calls. -/
def hydrateSaved (savedSim : SimCfg) (now : ℚ) : Option SimCfg × List StorageOp :=
  if now < savedSim.endTime + 60000 then (some savedSim, [])
  else (none, [.clear, .archive])

/-- Initial engine mode after hydration: Simulating when a descriptor was
resumed, Live otherwise. -/
def initMode (resolved : Option SimCfg) : Mode :=
  match resolved with
  | some _ => .simulating
  | none => .live

/-- Viewport state of the chart (src/unnamed/part_003 lines 51-54). -/
structure Viewport where
  xDomain : Option (ℚ × ℚ)
  yDomain : Option (ℚ × ℚ)
  autoScrollX : Bool
  autoScrollY : Bool
  deriving DecidableEq

/-- Drag-pan gesture (src/unnamed/part_003, handleMouseDown and
handleMouseMove): pointer-down disables auto-scroll, the move shifts both
domain bounds by `-dx * (b - a) / containerWidth`.  Without a domain the
handlers return without changing anything. -/
def pan (vp : Viewport) (dx containerWidth : ℚ) : Viewport :=
  match vp.xDomain with
  | none => vp
  | some (a, b) =>
    let duration := b - a
    let msPerPx := duration / containerWidth
    let timeShift := dx * msPerPx
    { vp with
      xDomain := some (a - timeShift, b - timeShift)
      autoScrollX := false }

/-- Visible slice of the buffer (src/unnamed/part_003 lines 317-327): without
a domain, or with an empty buffer, the last 100 samples; otherwise the samples
from the first index with `minTime <= time` on, filtered to `time <= maxTime`,
the pad on each side being half the domain width.  When `findIndex` misses,
`List.findIdx` returns the length, `drop` yields `[]` and the filter keeps it
`[]`, matching the `return []` of the source. -/
def visibleData (xDomain : Option (ℚ × ℚ)) (data : List Sample) : List Sample :=
  match xDomain with
  | none => sliceLast 100 data
  | some (a, b) =>
    if data.isEmpty then sliceLast 100 data
    else
      let duration := b - a
      let minTime := a - duration * 0.5
      let maxTime := b + duration * 0.5
      let startIndex := data.findIdx fun d => decide (minTime ≤ d.time)
      (data.drop startIndex).filter fun d => decide (d.time ≤ maxTime)

/-- Seed price of a new simulation (src/App.tsx line 343):
`chartDataRef.current[length - 1]?.price || basePrice`.  In JS the `||`
fallback fires when the buffer is empty and also when the last price is the
falsy number 0. -/
def startSimPrice (buf : List Sample) (basePrice : ℚ) : ℚ :=
  match buf.getLast? with
  | none => basePrice
  | some lastPoint => if lastPoint.price = 0 then basePrice else lastPoint.price

/-- Concrete descriptor for the C1 witness: the spec scenario startPrice 100,
targetPrice 200, durationMs 60000. -/
def simSixtySecond : SimCfg :=
  { active := true, startPrice := 100, targetPrice := 200, startTime := 0,
    durationMs := 60000, endTime := 60000, volatility := .low }

/-- Concrete descriptor for the C1 counterexample: positive durationMs of one
single tick period. -/
def simOnePeriod : SimCfg :=
  { active := true, startPrice := 100, targetPrice := 200, startTime := 0,
    durationMs := 1000, endTime := 1000, volatility := .low }

/-- Concrete stale descriptor for the C5 theorems: endTime 3600000, hydrated
two hours later. -/
def simStale : SimCfg :=
  { active := true, startPrice := 100, targetPrice := 200, startTime := 0,
    durationMs := 3600000, endTime := 3600000, volatility := .medium }

/-- The 3500 samples of the C2 buffer scenario, timed by index. -/
def fifoTestSamples : List Sample :=
  (List.range 3500).map fun (i : ℕ) =>
    { time := (i : ℚ), price := 1, isSimulation := false }

end CryptoSim

namespace CryptoSim

/-- C6: on a Simulating tick the jerk multiplier is 4 exactly when volatility
is High and the first draw exceeds 0.85; otherwise 2 exactly when the second
draw exceeds 0.9 at any volatility; otherwise 1; and the Simulating price
update adds the random shock multiplied by this jerk multiplier. -/
theorem jerkMultiplier_spec (v : Volatility) (r1 r2 : ℚ) :
    (jerkMultiplier v r1 r2 = 4 ↔ (v = .high ∧ 0.85 < r1)) ∧
    (jerkMultiplier v r1 r2 = 2 ↔ (¬(v = .high ∧ 0.85 < r1) ∧ 0.9 < r2)) ∧
    (jerkMultiplier v r1 r2 = 1 ↔ (¬(v = .high ∧ 0.85 < r1) ∧ ¬0.9 < r2)) ∧
    (∀ (sim : SimCfg) (now lastPrice rShock : ℚ), sim.volatility = v →
      simulatingPrice sim now lastPrice r1 r2 rShock
        = lastPrice
            + (sim.targetPrice - lastPrice)
              / max 1 ((sim.durationMs - (now - sim.startTime)) / 1000)
            + ((rShock - 0.5) * (lastPrice * volatilityMultiplier v) * 2)
              * jerkMultiplier v r1 r2) := by
  refine ⟨?_, ?_, ?_, ?_⟩
  · unfold jerkMultiplier
    split_ifs with h1 h2
    · exact ⟨fun _ => h1, fun _ => rfl⟩
    · exact ⟨fun h => absurd h (by norm_num), fun hc => absurd hc h1⟩
    · exact ⟨fun h => absurd h (by norm_num), fun hc => absurd hc h1⟩
  · unfold jerkMultiplier
    split_ifs with h1 h2
    · exact ⟨fun h => absurd h (by norm_num), fun hc => absurd h1 hc.1⟩
    · exact ⟨fun _ => ⟨h1, h2⟩, fun _ => rfl⟩
    · exact ⟨fun h => absurd h (by norm_num), fun hc => absurd hc.2 h2⟩
  · unfold jerkMultiplier
    split_ifs with h1 h2
    · exact ⟨fun h => absurd h (by norm_num), fun hc => absurd h1 hc.1⟩
    · exact ⟨fun h => absurd h (by norm_num), fun hc => absurd h2 hc.2⟩
    · exact ⟨fun _ => ⟨h1, h2⟩, fun _ => rfl⟩
  · intro sim now lastPrice rShock hv
    subst hv
    rfl

/-- Witness for C6 at concrete draws: High volatility with first draw 0.9
gives the times-4 jerk. -/
theorem jerkMultiplier_spec_witness : jerkMultiplier .high 0.9 0 = 4 :=
  ((jerkMultiplier_spec .high 0.9 0).1).mpr ⟨rfl, by norm_num⟩

/-- Unfolding helper: the pan gesture on a viewport whose domain is set. -/
theorem pan_some (vp : Viewport) (a b dx w : ℚ) (h : vp.xDomain = some (a, b)) :
    pan vp dx w
      = { vp with
          xDomain := some (a - dx * ((b - a) / w), b - dx * ((b - a) / w))
          autoScrollX := false } := by
  simp only [pan, h]

/-- C9: a pan by `dx` pixels over container width `w > 0` shifts both bounds
of `xDomain` by `-dx * (b - a) / w`, preserves the domain width, disables
auto-scroll, and a pan by `dx` followed by a pan by `-dx` at the same width
restores the original bounds exactly over exact arithmetic. -/
theorem pan_spec (vp : Viewport) (a b dx w : ℚ) (hdom : vp.xDomain = some (a, b))
    (hw : 0 < w) :
    (pan vp dx w).xDomain = some (a - dx * (b - a) / w, b - dx * (b - a) / w) ∧
    ((b - dx * (b - a) / w) - (a - dx * (b - a) / w) = b - a) ∧
    (pan vp dx w).autoScrollX = false ∧
    (pan (pan vp dx w) (-dx) w).xDomain = some (a, b) := by
  rw [pan_some vp a b dx w hdom]
  refine ⟨?_, by ring, rfl, ?_⟩
  · simp only [Option.some.injEq, Prod.mk.injEq]
    constructor <;> ring
  · rw [pan_some _ (a - dx * ((b - a) / w)) (b - dx * ((b - a) / w)) (-dx) w rfl]
    simp only [Option.some.injEq, Prod.mk.injEq]
    constructor <;> ring

/-- Witness for C9 at a concrete viewport: domain [0, 100], width 50,
pan by 10 then by -10. -/
theorem pan_spec_witness :
    (pan { xDomain := some (0, 100), yDomain := none,
           autoScrollX := true, autoScrollY := true } 10 50).xDomain
      = some (0 - 10 * (100 - 0) / 50, 100 - 10 * (100 - 0) / 50) :=
  (pan_spec { xDomain := some (0, 100), yDomain := none,
              autoScrollX := true, autoScrollY := true }
    0 100 10 50 rfl (by norm_num)).1

/-- C10: startSimulation seeds the descriptor startPrice from the last sample
of the buffer, falling back to the coin basePrice on an empty buffer, so the
seed is always defined and positive when the buffer prices and the base price
are. -/
theorem startSimPrice_spec (buf : List Sample) (basePrice : ℚ)
    (hbase : 0 < basePrice) (hpos : ∀ s ∈ buf, 0 < s.price) :
    0 < startSimPrice buf basePrice ∧
    (buf = [] → startSimPrice buf basePrice = basePrice) ∧
    (∀ lastPoint, buf.getLast? = some lastPoint →
      startSimPrice buf basePrice = lastPoint.price) := by
  unfold startSimPrice
  cases hl : buf.getLast? with
  | none =>
    refine ⟨hbase, fun _ => rfl, fun lp hlp => ?_⟩
    exact absurd hlp (by simp)
  | some lp =>
    have hmem : lp ∈ buf := List.mem_of_getLast?_eq_some hl
    have hp : 0 < lp.price := hpos lp hmem
    have hne : ¬lp.price = 0 := ne_of_gt hp
    refine ⟨by simp [hne, hp], fun hnil => ?_, fun lp2 hlp2 => ?_⟩
    · subst hnil
      simp at hl
    · have : lp = lp2 := by injection hlp2
      subst this
      simp [hne]

/-- Witness for C10 at a concrete buffer with one positive-price sample. -/
theorem startSimPrice_spec_witness :
    0 < startSimPrice [{ time := 0, price := 7, isSimulation := false }] 65000 :=
  (startSimPrice_spec [{ time := 0, price := 7, isSimulation := false }] 65000
    (by norm_num) (by intro s hs; simp at hs; subst hs; norm_num)).1

/-- Counterexample for C4: a noise draw within the allowed band
(rNoise = 0.05, noise = -44991/5000000, band half-width 4999/500000) makes the
Reverting tick increase `|realPrice - lastPrice|`: with realPrice 100 and
lastPrice 99.98 the gap grows from 0.02 to 0.0269982, so repeated ticks do not
strictly decrease `|diff|` for every in-band noise value. -/
theorem revertTick_noise_can_increase_gap :
    (¬|(100 : ℚ) - 4999 / 50| < 100 * 0.0001) ∧
    |((1 : ℚ) / 20 - 0.5) * ((4999 / 50) * 0.0002)| ≤ (4999 / 50) * 0.0001 ∧
    |(100 : ℚ) - (revertTick 100 (4999 / 50) (1 / 20)).1| > |(100 : ℚ) - 4999 / 50| := by
  have hsnap : ¬|(100 : ℚ) - 4999 / 50| < 100 * 0.0001 := by norm_num [not_lt, le_abs]
  refine ⟨hsnap, by norm_num [abs_le], ?_⟩
  have hrt : (revertTick 100 (4999 / 50) (1 / 20)).1 = revertPrice 100 (4999 / 50) (1 / 20) := by
    unfold revertTick
    rw [if_neg hsnap]
  rw [hrt]
  have h1 : (100 : ℚ) - revertPrice 100 (4999 / 50) (1 / 20) = 134991 / 5000000 := by
    unfold revertPrice
    norm_num
  have h2 : (100 : ℚ) - 4999 / 50 = 1 / 50 := by norm_num
  rw [h1, h2, abs_of_pos (by norm_num : (0 : ℚ) < 134991 / 5000000),
    abs_of_pos (by norm_num : (0 : ℚ) < 1 / 50)]
  norm_num

/-- C4 (amended): with the noise draw fixed at its midpoint (zero noise),
every Reverting tick on which the snap condition fails strictly decreases
`|realPrice - lastPrice|`; on a tick where `|diff| < realPrice * 0.0001`
holds, the produced price is exactly `realPrice` for any noise draw, the
reverting flag drops, and with no active descriptor the engine mode becomes
Live. -/
theorem revertTick_converges (target p rNoise : ℚ) (htarget : 0 < target) :
    (¬|target - p| < target * 0.0001 →
      revertTick target p 0.5 = (revertPrice target p 0.5, true) ∧
      |target - revertPrice target p 0.5| < |target - p|) ∧
    (|target - p| < target * 0.0001 →
      revertTick target p rNoise = (target, false)) ∧
    (∀ (st : EngineState) (now : ℚ) (lastPoint : Sample),
      st.sim = none → st.isReverting = true → st.buf.getLast? = some lastPoint →
      |target - lastPoint.price| < target * 0.0001 →
      modeOf (engineTick st now target 0 0 0 rNoise) = .live ∧
      (engineTick st now target 0 0 0 rNoise).buf
        = engineAppend st.buf now target false) := by
  refine ⟨?_, ?_, ?_⟩
  · intro hns
    have hd : target - revertPrice target p 0.5 = 0.9 * (target - p) := by
      unfold revertPrice
      ring
    refine ⟨by unfold revertTick; rw [if_neg hns], ?_⟩
    rw [hd, abs_mul, abs_of_pos (by norm_num : (0 : ℚ) < 0.9)]
    have hpos : 0 < |target - p| :=
      lt_of_lt_of_le (mul_pos htarget (by norm_num)) (not_lt.mp hns)
    linarith
  · intro hs
    unfold revertTick
    rw [if_pos hs]
  · intro st now lastPoint hsim hrev hlast hsnap
    have h1 : engineTick st now target 0 0 0 rNoise
        = revertBranchStep st now target lastPoint.price rNoise := by
      simp [engineTick, hlast, hsim, hrev]
    have h2 : revertTick target lastPoint.price rNoise = (target, false) := by
      unfold revertTick
      rw [if_pos hsnap]
    rw [h1]
    unfold revertBranchStep
    rw [h2]
    exact ⟨by simp [modeOf, hsim], rfl⟩

/-- Witness for C4 at realPrice 100 and lastPrice 100: the snap condition
holds and the tick returns (100, false). -/
theorem revertTick_converges_witness :
    |(100 : ℚ) - 100| < 100 * 0.0001 ∧ revertTick 100 100 0.3 = (100, false) :=
  ⟨by norm_num, (revertTick_converges 100 100 0.3 (by norm_num)).2.1 (by norm_num)⟩

/-- Counterexample for C5: hydrating `simStale` two hours after its endTime
issues the storage calls in the order clear-then-archive, not the
archive-then-clear order the claim states. -/
theorem hydrateSaved_order_counterexample :
    hydrateSaved simStale 10800000 = (none, [StorageOp.clear, StorageOp.archive]) ∧
    [StorageOp.clear, StorageOp.archive] ≠ [StorageOp.archive, StorageOp.clear] := by
  refine ⟨?_, by decide⟩
  unfold hydrateSaved
  rw [if_neg (by norm_num [simStale])]

/-- C5 (amended): a persisted descriptor hydrated at `now >= endTime + 60000`
is discarded rather than resumed, the initial mode is Live, and the
descriptor is cleared from the active slot and then archived to the history
log, in that order; the resulting storage has an empty slot and the
descriptor appended to the history. -/
theorem hydrateSaved_stale (savedSim : SimCfg) (now : ℚ) (st : StorageState)
    (h : savedSim.endTime + 60000 ≤ now) :
    hydrateSaved savedSim now = (none, [StorageOp.clear, StorageOp.archive]) ∧
    initMode (hydrateSaved savedSim now).1 = .live ∧
    applyOps savedSim st (hydrateSaved savedSim now).2
      = { activeSlot := none, history := st.history ++ [savedSim] } := by
  have hc : ¬now < savedSim.endTime + 60000 := not_lt.mpr h
  have h1 : hydrateSaved savedSim now = (none, [StorageOp.clear, StorageOp.archive]) := by
    unfold hydrateSaved
    rw [if_neg hc]
  refine ⟨h1, ?_, ?_⟩
  · rw [h1]
    rfl
  · rw [h1]
    rfl

/-- Witness for C5 at the concrete stale descriptor and empty storage. -/
theorem hydrateSaved_stale_witness :
    simStale.endTime + 60000 ≤ 10800000 ∧
    initMode (hydrateSaved simStale 10800000).1 = .live :=
  ⟨by norm_num [simStale],
    (hydrateSaved_stale simStale 10800000 ⟨none, []⟩ (by norm_num [simStale])).2.1⟩

/-- With the shock draw at its midpoint 0.5 the random shock vanishes and the
Simulating update is the pure drift step. -/
theorem simulatingPrice_midpoint (sim : SimCfg) (now p r1 r2 : ℚ) :
    simulatingPrice sim now p r1 r2 0.5
      = p + (sim.targetPrice - p) / max 1 ((sim.durationMs - (now - sim.startTime)) / 1000) := by
  simp only [simulatingPrice]
  norm_num

/-- Gap invariant of the noise-free Simulating path: after `k <= n - 1` ticks
of a simulation lasting `n` periods, the remaining gap to the target is the
initial gap scaled by `(n - 1 - k) / (n - 1)`. -/
theorem simPath_gap (sim : SimCfg) (n : ℕ) (hn : 2 ≤ n)
    (hd : sim.durationMs = (n : ℚ) * 1000) :
    ∀ k, k ≤ n - 1 →
      sim.targetPrice - simPathNoNoise sim k
        = (sim.targetPrice - sim.startPrice)
            * (((n : ℚ) - 1 - (k : ℚ)) / ((n : ℚ) - 1)) := by
  have h2n : (2 : ℚ) ≤ (n : ℚ) := by exact_mod_cast hn
  have hn1 : ((n : ℚ) - 1) ≠ 0 := ne_of_gt (by linarith)
  intro k
  induction k with
  | zero =>
    intro _
    simp only [simPathNoNoise, Nat.cast_zero]
    rw [sub_zero, div_self hn1, mul_one]
  | succ k ih =>
    intro hk1
    have hkn : k + 1 < n := by omega
    have ihk := ih (by omega)
    have hnow : (sim.startTime + ((k : ℚ) + 1) * 1000) - sim.startTime
        = ((k : ℚ) + 1) * 1000 := by ring
    have hcond : (sim.startTime + ((k : ℚ) + 1) * 1000) - sim.startTime < sim.durationMs := by
      rw [hnow, hd]
      have hklt : (k : ℚ) + 1 < (n : ℚ) := by exact_mod_cast hkn
      exact mul_lt_mul_of_pos_right hklt (by norm_num)
    simp only [simPathNoNoise]
    rw [if_pos hcond, simulatingPrice_midpoint]
    have hticks :
        (sim.durationMs - ((sim.startTime + ((k : ℚ) + 1) * 1000) - sim.startTime)) / 1000
          = (n : ℚ) - ((k : ℚ) + 1) := by
      rw [hd]
      ring
    rw [hticks]
    have hge : (1 : ℚ) ≤ (n : ℚ) - ((k : ℚ) + 1) := by
      have hk2 : ((k : ℚ) + 2) ≤ (n : ℚ) := by exact_mod_cast (by omega : k + 2 ≤ n)
      linarith
    rw [max_eq_right hge]
    have hm0 : (n : ℚ) - ((k : ℚ) + 1) ≠ 0 := ne_of_gt (by linarith)
    have hp : simPathNoNoise sim k
        = sim.targetPrice
            - (sim.targetPrice - sim.startPrice)
              * (((n : ℚ) - 1 - (k : ℚ)) / ((n : ℚ) - 1)) := by
      linarith [ihk]
    rw [hp]
    push_cast
    field_simp
    ring

/-- Counterexample for C1: durationMs = 1000 is positive, but with ticks fired
every 1000 ms the first tick already satisfies `elapsed >= durationMs` and
stops the simulation, so the path value at `elapsed == durationMs` is the
startPrice 100, not the targetPrice 200. -/
theorem simPath_one_period_counterexample :
    0 < simOnePeriod.durationMs ∧
    simPathNoNoise simOnePeriod 1 = 100 ∧
    simPathNoNoise simOnePeriod 1 ≠ simOnePeriod.targetPrice := by
  refine ⟨by norm_num [simOnePeriod], ?_, ?_⟩ <;>
    norm_num [simPathNoNoise, simOnePeriod]

/-- C1 (amended): for a simulation whose durationMs spans `n >= 2` tick
periods of 1000 ms, the noise-free Simulating update iterated from startPrice
reaches targetPrice exactly at the last generating tick
(`elapsed = durationMs - 1000`), and the path value at `elapsed == durationMs`
(where the tick stops the simulation without a further update) is still
exactly the targetPrice. -/
theorem simPath_reaches_target (sim : SimCfg) (n : ℕ) (hn : 2 ≤ n)
    (hd : sim.durationMs = (n : ℚ) * 1000) :
    simPathNoNoise sim (n - 1) = sim.targetPrice ∧
    simPathNoNoise sim n = sim.targetPrice := by
  have hgap := simPath_gap sim n hn hd (n - 1) le_rfl
  have hcast : ((n - 1 : ℕ) : ℚ) = (n : ℚ) - 1 := by
    have h1 : 1 ≤ n := by omega
    rw [Nat.cast_sub h1, Nat.cast_one]
  rw [hcast] at hgap
  have hzero : (n : ℚ) - 1 - ((n : ℚ) - 1) = 0 := by ring
  rw [hzero, zero_div, mul_zero, sub_eq_zero] at hgap
  have h1 : simPathNoNoise sim (n - 1) = sim.targetPrice := hgap.symm
  have h2 : simPathNoNoise sim n = simPathNoNoise sim (n - 1) := by
    obtain ⟨m, rfl⟩ : ∃ m, n = m + 1 := ⟨n - 1, by omega⟩
    simp only [simPathNoNoise, Nat.add_sub_cancel]
    rw [if_neg]
    have hmeq : (sim.startTime + ((m : ℚ) + 1) * 1000) - sim.startTime
        = ((m : ℚ) + 1) * 1000 := by ring
    rw [hmeq, hd]
    push_cast
    exact lt_irrefl _
  exact ⟨h1, h2.trans h1⟩

/-- Witness for C1 at the spec scenario: startPrice 100, targetPrice 200,
durationMs 60000, 60 tick periods. -/
theorem simPath_reaches_target_witness :
    (2 ≤ 60) ∧ simSixtySecond.durationMs = ((60 : ℕ) : ℚ) * 1000 ∧
    simPathNoNoise simSixtySecond (60 - 1) = simSixtySecond.targetPrice :=
  ⟨by norm_num, by norm_num [simSixtySecond],
    (simPath_reaches_target simSixtySecond 60 (by norm_num)
      (by norm_num [simSixtySecond])).1⟩

/-- JS `slice(-n)` is `List.rtake`. -/
theorem sliceLast_eq_rtake (n : ℕ) (l : List Sample) : sliceLast n l = l.rtake n := rfl

/-- Length of `slice(-n)`. -/
theorem length_sliceLast (n : ℕ) (l : List Sample) :
    (sliceLast n l).length = min n l.length := by
  simp only [sliceLast, List.length_drop]
  omega

/-- The last `n` elements form a sublist. -/
theorem sliceLast_sublist (n : ℕ) (l : List Sample) : (sliceLast n l).Sublist l :=
  List.drop_sublist _ _

/-- The last `n` elements form a suffix. -/
theorem sliceLast_suffix (n : ℕ) (l : List Sample) : sliceLast n l <:+ l :=
  List.drop_suffix _ _

/-- A list already within the capacity is unchanged by `slice(-n)`. -/
theorem sliceLast_of_length_le {n : ℕ} {l : List Sample} (h : l.length ≤ n) :
    sliceLast n l = l := by
  unfold sliceLast
  rw [Nat.sub_eq_zero_of_le h, List.drop_zero]

/-- Evicting before appending more and evicting once at the end agree. -/
theorem sliceLast_append_sliceLast (n : ℕ) (xs ys : List Sample) :
    sliceLast n (sliceLast n xs ++ ys) = sliceLast n (xs ++ ys) := by
  simp only [sliceLast_eq_rtake, List.rtake_eq_reverse_take_reverse]
  simp only [List.reverse_append, List.reverse_reverse]
  rw [List.take_append_eq_append_take, List.take_append_eq_append_take, List.take_take]
  have hmin : min (n - ys.reverse.length) n = n - ys.reverse.length :=
    min_eq_left (Nat.sub_le _ _)
  rw [hmin]

/-- Folding the append-then-evict step from any in-capacity buffer equals a
single final eviction. -/
theorem foldl_bufferAppend :
    ∀ (l : List Sample) (b : List Sample), b.length ≤ bufferCap →
      List.foldl bufferAppend b l = sliceLast bufferCap (b ++ l) := by
  intro l
  induction l with
  | nil =>
    intro b hb
    rw [List.foldl_nil, List.append_nil, sliceLast_of_length_le hb]
  | cons p l ih =>
    intro b hb
    rw [List.foldl_cons,
      ih (bufferAppend b p) (by rw [bufferAppend, length_sliceLast]; exact min_le_left _ _),
      show bufferAppend b p = sliceLast bufferCap (b ++ [p]) from rfl,
      sliceLast_append_sliceLast]
    simp

/-- Length of the append-then-evict step. -/
theorem length_bufferAppend (buf : List Sample) (p : Sample) :
    (bufferAppend buf p).length = min bufferCap (buf.length + 1) := by
  rw [bufferAppend, length_sliceLast]
  simp

/-- The append-then-evict step keeps the appended point as the last element. -/
theorem getLast?_bufferAppend (buf : List Sample) (p : Sample) :
    (bufferAppend buf p).getLast? = some p := by
  show (List.rtake (buf ++ [p]) bufferCap).getLast? = some p
  rw [show bufferCap = 2999 + 1 from rfl, List.rtake_concat_succ, List.getLast?_concat]

/-- Equation of the gated append on an empty buffer. -/
theorem engineAppend_none {buf : List Sample} (h : buf.getLast? = none)
    (now price : ℚ) (isSim : Bool) : engineAppend buf now price isSim = buf := by
  simp only [engineAppend, h]

/-- Equation of the gated append on a non-empty buffer. -/
theorem engineAppend_some {buf : List Sample} {lastPoint : Sample}
    (h : buf.getLast? = some lastPoint) (now price : ℚ) (isSim : Bool) :
    engineAppend buf now price isSim
      = if 1000 < now - lastPoint.time then
          bufferAppend buf { time := now, price := clampPrice price, isSimulation := isSim }
        else buf := by
  simp only [engineAppend, h]

/-- In a buffer with strictly increasing times, every sample is no later than
the last one. -/
theorem time_le_getLast :
    ∀ (buf : List Sample) (lastPoint : Sample),
      buf.getLast? = some lastPoint →
      buf.Pairwise (fun s t => s.time < t.time) →
      ∀ s ∈ buf, s.time ≤ lastPoint.time := by
  intro buf
  induction buf with
  | nil => intro lp h; simp at h
  | cons x l ih =>
    intro lp hlast hsort s hs
    cases l with
    | nil =>
      simp at hlast hs
      rw [hs, hlast]
    | cons y t =>
      have hlast2 : (y :: t).getLast? = some lp := by
        rwa [List.getLast?_cons_cons] at hlast
      rcases List.mem_cons.mp hs with rfl | hs2
      · have hmem : lp ∈ y :: t := List.mem_of_getLast?_eq_some hlast2
        exact le_of_lt ((List.pairwise_cons.mp hsort).1 lp hmem)
      · exact ih lp hlast2 (List.pairwise_cons.mp hsort).2 s hs2

/-- The gated clamped append preserves strictly increasing times. -/
theorem pairwise_engineAppend {buf : List Sample}
    (hsort : buf.Pairwise fun s t => s.time < t.time)
    (now price : ℚ) (isSim : Bool) :
    (engineAppend buf now price isSim).Pairwise fun s t => s.time < t.time := by
  cases hlast : buf.getLast? with
  | none =>
    rw [engineAppend_none hlast]
    exact hsort
  | some lastPoint =>
    rw [engineAppend_some hlast]
    split_ifs with hgate
    · refine List.Pairwise.sublist (sliceLast_sublist _ _) ?_
      rw [List.pairwise_append]
      refine ⟨hsort, List.pairwise_singleton _ _, ?_⟩
      intro x hx y hy
      rw [List.mem_singleton] at hy
      subst hy
      have hxle := time_le_getLast buf lastPoint hlast hsort x hx
      show x.time < now
      have : lastPoint.time < now := by linarith
      linarith
    · exact hsort

/-- C3: the engine tick appends only when `now - lastTime > 1000`; firing
twice within one tick period appends at most one sample; and appends preserve
the strictly increasing time order of the buffer. -/
theorem engineAppend_gate_spec (buf : List Sample) (lastPoint : Sample)
    (hlast : buf.getLast? = some lastPoint)
    (hsort : buf.Pairwise fun s t => s.time < t.time) :
    (∀ now price isSim, ¬1000 < now - lastPoint.time →
      engineAppend buf now price isSim = buf) ∧
    (∀ now price isSim, 1000 < now - lastPoint.time →
      engineAppend buf now price isSim
        = bufferAppend buf { time := now, price := clampPrice price, isSimulation := isSim }) ∧
    (∀ now price isSim,
      (engineAppend buf now price isSim).Pairwise fun s t => s.time < t.time) ∧
    (∀ now1 now2 price1 price2 isSim1 isSim2, now2 ≤ now1 + 1000 →
      (engineAppend (engineAppend buf now1 price1 isSim1) now2 price2 isSim2).length
        ≤ buf.length + 1) := by
  have hno : ∀ now price isSim, ¬1000 < now - lastPoint.time →
      engineAppend buf now price isSim = buf := by
    intro now price isSim h
    rw [engineAppend_some hlast, if_neg h]
  have hyes : ∀ now price isSim, 1000 < now - lastPoint.time →
      engineAppend buf now price isSim
        = bufferAppend buf { time := now, price := clampPrice price, isSimulation := isSim } := by
    intro now price isSim h
    rw [engineAppend_some hlast, if_pos h]
  have hlen : ∀ now price isSim,
      (engineAppend buf now price isSim).length ≤ buf.length + 1 := by
    intro now price isSim
    rw [engineAppend_some hlast]
    split_ifs
    · rw [length_bufferAppend]
      exact min_le_right _ _
    · omega
  refine ⟨hno, hyes, fun now price isSim => pairwise_engineAppend hsort now price isSim, ?_⟩
  intro now1 now2 price1 price2 isSim1 isSim2 h12
  by_cases hg1 : 1000 < now1 - lastPoint.time
  · rw [hyes now1 price1 isSim1 hg1]
    have hlast1 : (bufferAppend buf
        { time := now1, price := clampPrice price1, isSimulation := isSim1 }).getLast?
          = some { time := now1, price := clampPrice price1, isSimulation := isSim1 } :=
      getLast?_bufferAppend _ _
    have hsecond : engineAppend (bufferAppend buf
        { time := now1, price := clampPrice price1, isSimulation := isSim1 }) now2 price2 isSim2
          = bufferAppend buf
              { time := now1, price := clampPrice price1, isSimulation := isSim1 } := by
      rw [engineAppend_some hlast1,
        if_neg (show ¬1000 < now2 - now1 by linarith)]
    rw [hsecond, length_bufferAppend]
    exact min_le_right _ _
  · rw [hno now1 price1 isSim1 hg1]
    exact hlen now2 price2 isSim2

/-- Witness for C3: a one-sample buffer and a firing 500 ms after it appends
nothing. -/
theorem engineAppend_gate_spec_witness :
    engineAppend [{ time := 0, price := 1, isSimulation := false }] 500 2 false
      = [{ time := 0, price := 1, isSimulation := false }] :=
  (engineAppend_gate_spec [{ time := 0, price := 1, isSimulation := false }]
      { time := 0, price := 1, isSimulation := false } rfl (by simp)).1
    500 2 false (by norm_num)

/-- C2: the buffer never exceeds 3000 samples after an engine append, and
eviction is FIFO: appending the 3500 scenario samples to an empty buffer
leaves 3000 samples whose first element is the original sample of index
500. -/
theorem bufferAppend_cap_fifo :
    (∀ (buf : List Sample) (p : Sample), (bufferAppend buf p).length ≤ 3000) ∧
    (List.foldl bufferAppend [] fifoTestSamples).length = 3000 ∧
    (List.foldl bufferAppend [] fifoTestSamples).head? = fifoTestSamples[500]? ∧
    fifoTestSamples[500]? = some { time := (500 : ℚ), price := 1, isSimulation := false } := by
  have hlen : fifoTestSamples.length = 3500 := by
    simp only [fifoTestSamples, List.length_map, List.length_range]
  have hfold : List.foldl bufferAppend [] fifoTestSamples = fifoTestSamples.drop 500 := by
    rw [foldl_bufferAppend fifoTestSamples [] (by simp [bufferCap]), List.nil_append]
    show fifoTestSamples.drop (fifoTestSamples.length - bufferCap) = _
    rw [hlen]
    norm_num [bufferCap]
  refine ⟨?_, ?_, ?_, ?_⟩
  · intro buf p
    rw [length_bufferAppend]
    exact min_le_left _ _
  · rw [hfold, List.length_drop, hlen]
  · rw [hfold, List.head?_eq_getElem?, List.getElem?_drop]
  · show ((List.range 3500).map fun (i : ℕ) =>
        ({ time := (i : ℚ), price := 1, isSimulation := false } : Sample))[500]?
      = some { time := (500 : ℚ), price := 1, isSimulation := false }
    rw [List.getElem?_map, List.getElem?_range (by norm_num : 500 < 3500)]
    simp

/-- Membership after the gated clamped append: a sample is an old one or
carries the clamped price. -/
theorem mem_engineAppend (buf : List Sample) (now price : ℚ) (isSim : Bool) :
    ∀ s ∈ engineAppend buf now price isSim, s ∈ buf ∨ s.price = clampPrice price := by
  intro s hs
  cases hlast : buf.getLast? with
  | none =>
    rw [engineAppend_none hlast] at hs
    exact Or.inl hs
  | some lastPoint =>
    rw [engineAppend_some hlast] at hs
    split at hs
    · have hmem := (sliceLast_sublist _ _).subset hs
      rcases List.mem_append.mp hmem with h | h
      · exact Or.inl h
      · rw [List.mem_singleton] at h
        subst h
        exact Or.inr rfl
    · exact Or.inl hs

/-- Equation of the engine tick on an empty buffer: early return. -/
theorem engineTick_noBuf {st : EngineState} (h : st.buf.getLast? = none)
    (now realPrice r1 r2 rShock rNoise : ℚ) :
    engineTick st now realPrice r1 r2 rShock rNoise = st := by
  simp only [engineTick, h]

/-- Equation of the engine tick with no active descriptor. -/
theorem engineTick_simNone {st : EngineState} {lastPoint : Sample}
    (hlast : st.buf.getLast? = some lastPoint) (hsim : st.sim = none)
    (now realPrice r1 r2 rShock rNoise : ℚ) :
    engineTick st now realPrice r1 r2 rShock rNoise
      = if st.isReverting then revertBranchStep st now realPrice lastPoint.price rNoise
        else
          { st with
            isLive := true
            buf := engineAppend st.buf now realPrice false } := by
  simp only [engineTick, hlast, hsim]

/-- Equation of the engine tick with a descriptor present. -/
theorem engineTick_simSome {st : EngineState} {lastPoint : Sample} {sim : SimCfg}
    (hlast : st.buf.getLast? = some lastPoint) (hsim : st.sim = some sim)
    (now realPrice r1 r2 rShock rNoise : ℚ) :
    engineTick st now realPrice r1 r2 rShock rNoise
      = if sim.active then
          if sim.durationMs ≤ now - sim.startTime then
            { st with
              sim := none
              isReverting := true
              isLive := false
              buf := engineAppend st.buf now lastPoint.price false }
          else
            { st with
              isLive := false
              buf := engineAppend st.buf now
                (simulatingPrice sim now lastPoint.price r1 r2 rShock) true }
        else if st.isReverting then
          revertBranchStep st now realPrice lastPoint.price rNoise
        else st := by
  simp only [engineTick, hlast, hsim]

/-- C8: every sample the engine tick stores, in every mode, has price at least
0.00000001 and hence strictly positive; old samples are left unchanged. -/
theorem engineTick_price_floor (st : EngineState) (now realPrice r1 r2 rShock rNoise : ℚ) :
    ∀ s ∈ (engineTick st now realPrice r1 r2 rShock rNoise).buf,
      s ∈ st.buf ∨ (0.00000001 ≤ s.price ∧ 0 < s.price) := by
  have hclamp : ∀ q : ℚ, (0.00000001 : ℚ) ≤ clampPrice q ∧ 0 < clampPrice q := fun q =>
    ⟨le_max_left _ _, lt_of_lt_of_le (by norm_num) (le_max_left _ _)⟩
  have happ : ∀ (t p : ℚ) (i : Bool), ∀ s ∈ engineAppend st.buf t p i,
      s ∈ st.buf ∨ (0.00000001 ≤ s.price ∧ 0 < s.price) := by
    intro t p i s hs
    rcases mem_engineAppend st.buf t p i s hs with h | h
    · exact Or.inl h
    · right
      rw [h]
      exact hclamp p
  intro s hs
  cases hlast : st.buf.getLast? with
  | none =>
    rw [engineTick_noBuf hlast] at hs
    exact Or.inl hs
  | some lastPoint =>
    cases hsim : st.sim with
    | none =>
      rw [engineTick_simNone hlast hsim] at hs
      split at hs
      · simp only [revertBranchStep] at hs
        exact happ _ _ _ s hs
      · exact happ _ _ _ s hs
    | some sim =>
      rw [engineTick_simSome hlast hsim] at hs
      split at hs
      · split at hs
        · exact happ _ _ _ s hs
        · exact happ _ _ _ s hs
      · split at hs
        · simp only [revertBranchStep] at hs
          exact happ _ _ _ s hs
        · exact Or.inl hs

/-- Witness for C8 at a concrete Live tick with a negative staged real price:
the sample it stores is clamped, so it is in the old buffer or has a price of
at least 0.00000001. -/
theorem engineTick_price_floor_witness :
    ({ time := 2000, price := clampPrice (-5), isSimulation := false } : Sample)
        ∈ ({ buf := [{ time := 0, price := 1, isSimulation := false }], sim := none,
             isReverting := false, isLive := true } : EngineState).buf ∨
      (0.00000001
          ≤ ({ time := 2000, price := clampPrice (-5), isSimulation := false } : Sample).price ∧
        0 < ({ time := 2000, price := clampPrice (-5), isSimulation := false } : Sample).price) :=
  engineTick_price_floor
    { buf := [{ time := 0, price := 1, isSimulation := false }], sim := none,
      isReverting := false, isLive := true } 2000 (-5) 0 0 0 0
    { time := 2000, price := clampPrice (-5), isSimulation := false }
    (by norm_num [engineTick, engineAppend, bufferAppend, sliceLast, bufferCap])

/-- Dropping up to the first index found by `findIndex` is `dropWhile` on the
negated predicate. -/
theorem drop_findIdx_eq_dropWhile (p : Sample → Bool) :
    ∀ l : List Sample, l.drop (l.findIdx p) = l.dropWhile fun s => !p s := by
  intro l
  induction l with
  | nil => rfl
  | cons x l ih =>
    rw [List.findIdx_cons, List.dropWhile_cons]
    by_cases h : p x
    · simp [h]
    · simp only [Bool.not_eq_true] at h
      simp [h, ih]

/-- In a non-decreasing buffer, everything surviving the dropWhile of the
lower-bound test satisfies the lower bound. -/
theorem mem_dropWhile_lower (minT : ℚ) :
    ∀ l : List Sample,
      l.Pairwise (fun s t => s.time ≤ t.time) →
      ∀ s ∈ l.dropWhile fun d => !decide (minT ≤ d.time), minT ≤ s.time := by
  intro l
  induction l with
  | nil => simp
  | cons x l ih =>
    intro hp s hs
    rw [List.dropWhile_cons] at hs
    by_cases h : minT ≤ x.time
    · rw [if_neg (by simp [h])] at hs
      rcases List.mem_cons.mp hs with rfl | hs2
      · exact h
      · have := (List.pairwise_cons.mp hp).1 s hs2
        linarith
    · rw [if_pos (by simp [h])] at hs
      exact ih (List.pairwise_cons.mp hp).2 s hs

/-- C7: the visible slice keeps only samples within the padded domain (pad is
half the domain width), stays non-decreasing in time, and without a domain is
the last 100 samples, a suffix of the buffer of length `min 100 length`. -/
theorem visibleData_spec (data : List Sample) (a b : ℚ)
    (hsort : data.Pairwise fun s t => s.time ≤ t.time) :
    (∀ s ∈ visibleData (some (a, b)) data,
      a - (b - a) * 0.5 ≤ s.time ∧ s.time ≤ b + (b - a) * 0.5) ∧
    ((visibleData (some (a, b)) data).Pairwise fun s t => s.time ≤ t.time) ∧
    (visibleData none data = sliceLast 100 data) ∧
    ((sliceLast 100 data).length = min 100 data.length) ∧
    (sliceLast 100 data <:+ data) := by
  refine ⟨?_, ?_, rfl, length_sliceLast _ _, sliceLast_suffix _ _⟩
  · intro s hs
    simp only [visibleData] at hs
    by_cases hempty : data.isEmpty
    · rw [if_pos hempty] at hs
      rw [List.isEmpty_iff] at hempty
      subst hempty
      simp [sliceLast] at hs
    · rw [if_neg hempty] at hs
      have hs2 := List.mem_filter.mp hs
      constructor
      · have hdw := hs2.1
        rw [drop_findIdx_eq_dropWhile] at hdw
        exact mem_dropWhile_lower (a - (b - a) * 0.5) data hsort s hdw
      · exact of_decide_eq_true hs2.2
  · simp only [visibleData]
    by_cases hempty : data.isEmpty
    · rw [if_pos hempty]
      exact List.Pairwise.sublist (sliceLast_sublist _ _) hsort
    · rw [if_neg hempty]
      exact List.Pairwise.sublist
        ((List.filter_sublist _).trans (List.drop_sublist _ _)) hsort

/-- Witness for C7 at a concrete sorted two-sample buffer and domain [5, 9]. -/
theorem visibleData_spec_witness :
    (visibleData (some (5, 9))
        [{ time := 0, price := 1, isSimulation := false },
         { time := 10, price := 2, isSimulation := false }]).Pairwise
      fun s t => s.time ≤ t.time :=
  (visibleData_spec
    [{ time := 0, price := 1, isSimulation := false },
     { time := 10, price := 2, isSimulation := false }] 5 9
    (by simp [List.pairwise_cons])).2.1

end CryptoSim
